import Mathlib

/-!
Verification of the patience-game classifier (src/src/main.rs).

The Rust source is shallowly embedded below: pure functions become Lean
functions, the mutating methods on `Game` become state-passing functions,
`usize` indices become `Nat`, and every Rust operation that can panic
(`Vec::remove`, indexed assignment, `usize` subtraction underflow) is
modelled by an `Option` result where `none` stands for the panic.
Card identities are `Fin 52`, as produced by `Deck::new_unshuffled`
(`(0..52).map(Card)`); both partial `match` arms in `Card::rank` and
`Card::suit` are total on this domain, so the source's `panic!` branches
are unreachable and the Lean versions are total functions.
-/

set_option maxRecDepth 4000

namespace SG

/-- Card identity, an integer in [0,52) (struct Card(u8), kept in range by
construction: decks are permutations of 0..52). -/
abbrev Card := Fin 52

/-- enum Rank from the source. -/
inductive Rank where
  | ace | two | three | four | five | six | seven
  | eight | nine | ten | jack | queen | king
deriving DecidableEq

/-- enum Suit from the source. -/
inductive Suit where
  | clubs | diamonds | hearts | spades
deriving DecidableEq

/-- Card::rank: match on self.0 % 13.  Since n % 13 < 13 always holds, the
final arm is exactly the value 12 (King); the source's panic arm is dead
code there as well. -/
def rank (c : Card) : Rank :=
  match c.val % 13 with
  | 0 => .ace | 1 => .two | 2 => .three | 3 => .four | 4 => .five
  | 5 => .six | 6 => .seven | 7 => .eight | 8 => .nine | 9 => .ten
  | 10 => .jack | 11 => .queen | _ => .king

/-- Card::suit: match on self.0 / 13.  Since c < 52, c / 13 < 4, so the
final arm is exactly the value 3 (Spades); the source's panic arm is
unreachable for in-range identities. -/
def suit (c : Card) : Suit :=
  match c.val / 13 with
  | 0 => .clubs | 1 => .diamonds | 2 => .hearts | _ => .spades

/-- Index of a Rank in the source's enum declaration order (the inverse of
the rank decoding; the source stores only the identity, so re-encoding is
modelled from the spec's identity = suit*13 + rank layout). -/
def rankIdx (r : Rank) : Nat :=
  match r with
  | .ace => 0 | .two => 1 | .three => 2 | .four => 3 | .five => 4
  | .six => 5 | .seven => 6 | .eight => 7 | .nine => 8 | .ten => 9
  | .jack => 10 | .queen => 11 | .king => 12

/-- Index of a Suit in the source's enum declaration order. -/
def suitIdx (s : Suit) : Nat :=
  match s with
  | .clubs => 0 | .diamonds => 1 | .hearts => 2 | .spades => 3

/-- Modelled from the spec: re-encoding a (rank, suit) pair into a card
identity.  The source never materialises this function (identities are
stored, ranks/suits derived), but the spec states the round-trip law
identity = suit*13 + rank. -/
def encode (r : Rank) (s : Suit) : Nat := suitIdx s * 13 + rankIdx r

/-- struct Deck { list: Vec<Card>, pos: usize }. -/
structure Deck where
  list : List Card
  pos : Nat
deriving DecidableEq

/-- Deck::new_unshuffled: identities 0..52 in order, cursor 0. -/
def Deck.new_unshuffled : Deck := ⟨List.finRange 52, 0⟩

/-- Deck::draw: if pos >= len, None; else advance the cursor and return the
card that was at the cursor. -/
def Deck.draw (d : Deck) : Option (Card × Deck) :=
  if h : d.pos < d.list.length then
    some (d.list.get ⟨d.pos, h⟩, { d with pos := d.pos + 1 })
  else
    none

/-- enum MatchType. -/
inductive MatchType where
  | suitM | rankM
deriving DecidableEq

/-- struct PlacedCard { card, matches_one, matches_three }. -/
structure PlacedCard where
  card : Card
  matches_one : Bool
  matches_three : Bool
deriving DecidableEq

/-- type Match = (usize, MatchDistance): tableau index of the matching card
and its match distance. -/
abbrev MatchMove := Nat × Nat

/-- Game::is_match on the underlying card identities: a suit match takes
priority, then a rank match, else no match. -/
def isMatchC (x y : Card) : Option MatchType :=
  if suit x = suit y then some .suitM
  else if rank x = rank y then some .rankM
  else none

/-- Game::is_match(a, b): compares only the card fields of the two placed
cards. -/
def isMatch (a b : PlacedCard) : Option MatchType := isMatchC a.card b.card

/-- The sequence of card identities held by a tableau (flags stripped). -/
def cardsOf (t : List PlacedCard) : List Card := t.map (·.card)

/-- Game::check_matches_at(ix): if ix is out of range, do nothing;
otherwise recompute matches_one against position ix-1 and matches_three
against position ix-3.  The source reads the neighbours with
ix.wrapping_sub(d), which yields an out-of-range (hence absent) index
whenever ix < d; that guard is written explicitly here. -/
def check_matches_at (t : List PlacedCard) (ix : Nat) : List PlacedCard :=
  if h : ix < t.length then
    let a := t.get ⟨ix, h⟩
    let m1 := ((if 1 ≤ ix then t[ix - 1]? else none).bind fun b => isMatch a b).isSome
    let m3 := ((if 3 ≤ ix then t[ix - 3]? else none).bind fun b => isMatch a b).isSome
    t.set ix { a with matches_one := m1, matches_three := m3 }
  else t

/-- The for-loop `for ix in ix..=ix+2 { self.check_matches_at(ix) }` used by
remove_card and place_card. -/
def check3 (t : List PlacedCard) (ix : Nat) : List PlacedCard :=
  check_matches_at (check_matches_at (check_matches_at t ix) (ix + 1)) (ix + 2)

/-- Game::remove_card(ix): Vec::remove panics when ix is out of range
(modelled as none); otherwise the card is removed, positions ix..ix+2 are
rechecked and the removed card is returned. -/
def remove_card (t : List PlacedCard) (ix : Nat) : Option (Card × List PlacedCard) :=
  match t[ix]? with
  | none => none
  | some c => some (c.card, check3 (t.eraseIdx ix) ix)

/-- Game::place_card(c, ix): indexed assignment panics when ix is out of
range (modelled as none); otherwise the slot is overwritten with the card
(both flags reset) and positions ix..ix+2 are rechecked. -/
def place_card (t : List PlacedCard) (c : Card) (ix : Nat) : Option (List PlacedCard) :=
  if ix < t.length then
    some (check3 (t.set ix ⟨c, false, false⟩) ix)
  else none

/-- Game::make_match on the tableau: let to = index - distance (usize
subtraction, which panics on underflow — modelled as none when
distance > index), remove the card at the index, then place it at to. -/
def make_match_t (t : List PlacedCard) (m : MatchMove) : Option (List PlacedCard) :=
  if m.2 ≤ m.1 then
    (remove_card t m.1).bind fun pr => place_card pr.2 pr.1 (m.1 - m.2)
  else none

/-- Helper recursion for find_matches: scan positions ix, ix+1, ... pushing
(position, 1) for a set matches_one flag and then (position, 3) for a set
matches_three flag, in scan order. -/
def fmAux (ix : Nat) (t : List PlacedCard) : List MatchMove :=
  match t with
  | [] => []
  | c :: rest =>
      (if c.matches_one then [(ix, 1)] else []) ++
      (if c.matches_three then [(ix, 3)] else []) ++
      fmAux (ix + 1) rest

/-- Game::find_matches: enumerate the tableau, collecting one candidate per
set flag, ascending positions, distance 1 before distance 3. -/
def find_matches (t : List PlacedCard) : List MatchMove := fmAux 0 t

/-- struct Game { deck, choice_points, tableau }. -/
structure Game where
  deck : Deck
  choice_points : Nat
  tableau : List PlacedCard
deriving DecidableEq

/-- Game::new, with the shuffled deck supplied as a parameter (the source's
thread_rng shuffle is an opaque permutation generator). -/
def initGame (d : Deck) : Game := ⟨d, 0, []⟩

/-- struct SavedGame { pos, tableau }: snapshot of the draw cursor and the
tableau (the deck's card order and the global choice counter are not part
of a snapshot). -/
structure SavedGame where
  pos : Nat
  tableau : List PlacedCard
deriving DecidableEq

/-- Game::save_game. -/
def save_game (g : Game) : SavedGame := ⟨g.deck.pos, g.tableau⟩

/-- Game::restore: resets the cursor and tableau; the deck's card list and
the choice counter are untouched. -/
def restore (g : Game) (s : SavedGame) : Game :=
  { g with deck := { g.deck with pos := s.pos }, tableau := s.tableau }

/-- Game::deal_card: draw (None when the deck is exhausted), push the card
with both flags clear, then recheck matches at the new last position. -/
def deal_card (g : Game) : Option Game :=
  (g.deck.draw).map fun cd =>
    let t := g.tableau ++ [⟨cd.1, false, false⟩]
    { g with deck := cd.2, tableau := check_matches_at t (t.length - 1) }

/-- Game::make_match lifted to the game state. -/
def make_match (g : Game) (m : MatchMove) : Option Game :=
  (make_match_t g.tableau m).map fun t => { g with tableau := t }

/-- enum Choices. -/
inductive Choices where
  | GameWon
  | GameLost
  | ChooseOne (l : List MatchMove)
deriving DecidableEq

/-- Game::play_to_choice, with explicit fuel for the loop (none = out of
fuel, or a panic inside a forced make_match).  Zero candidates: deal, and
on deck exhaustion return GameWon iff exactly one card remains, GameLost
otherwise.  One candidate: resolve it (forced move) and continue.  Two or
more: bump the global choice counter and surface the full candidate
list. -/
def playToChoiceFuel : Nat → Game → Option (Choices × Game)
  | 0, _ => none
  | fuel + 1, g =>
    match find_matches g.tableau with
    | [] =>
        match deal_card g with
        | some g' => playToChoiceFuel fuel g'
        | none =>
            if g.tableau.length = 1 then some (.GameWon, g) else some (.GameLost, g)
    | [m] =>
        match make_match g m with
        | some g' => playToChoiceFuel fuel g'
        | none => none
    | ms =>
        some (.ChooseOne ms, { g with choice_points := g.choice_points + 1 })

/-- Fuel that always suffices for play_to_choice: each loop iteration
either deals (remaining deck shrinks) or resolves a forced match (tableau
shrinks), so 2*(cards left in the deck) + tableau length bounds the number
of iterations. -/
def ptcMeasure (g : Game) : Nat :=
  2 * (g.deck.list.length - g.deck.pos) + g.tableau.length

/-- Game::play_to_choice with its canonical (always sufficient) fuel. -/
def playToChoice (g : Game) : Option (Choices × Game) :=
  playToChoiceFuel (ptcMeasure g + 1) g

/-- enum Result of play_one. -/
inductive SResult where
  | AlwaysWin
  | AlwaysLose
  | GaveUp
  | CanWin
deriving DecidableEq

/-- The final classification of play_one: no losses tallied = AlwaysWin,
else no wins tallied = AlwaysLose, else CanWin. -/
def classify (wins losses : Nat) : SResult :=
  if losses = 0 then .AlwaysWin else if wins = 0 then .AlwaysLose else .CanWin

/-- The loop of play_one, with the search-size cap as a parameter (the
source hardcodes 1_000_000) and explicit fuel for the outer loop.  The
returned tuple is (choice_points, wins, losses, classification); none
means out of fuel or a panic.  A ChooseOne outcome pushes one
(snapshot, candidate) pair per candidate in order — the work stack is kept
most-recent-first, so pushing a block prepends its reverse — then trips
GaveUp if the global counter exceeds the cap.  Otherwise one pending pair
is popped, restored and applied; an empty stack ends the search. -/
def searchLoop : Nat → Game → Nat → Nat → List (SavedGame × MatchMove) → Nat →
    Option (Nat × Nat × Nat × SResult)
  | 0, _, _, _, _, _ => none
  | fuel + 1, g, wins, losses, stack, cap =>
    match playToChoice g with
    | none => none
    | some (.GameWon, g') =>
        match stack with
        | [] => some (g'.choice_points, wins + 1, losses, classify (wins + 1) losses)
        | (sv, m) :: rest =>
            (make_match (restore g' sv) m).bind fun g2 =>
              searchLoop fuel g2 (wins + 1) losses rest cap
    | some (.GameLost, g') =>
        match stack with
        | [] => some (g'.choice_points, wins, losses + 1, classify wins (losses + 1))
        | (sv, m) :: rest =>
            (make_match (restore g' sv) m).bind fun g2 =>
              searchLoop fuel g2 wins (losses + 1) rest cap
    | some (.ChooseOne c, g') =>
        if cap < g'.choice_points then some (g'.choice_points, wins, losses, .GaveUp)
        else
          match (c.map fun m => (save_game g', m)).reverse ++ stack with
          | [] => some (g'.choice_points, wins, losses, classify wins losses)
          | (sv, m) :: rest =>
              (make_match (restore g' sv) m).bind fun g2 =>
                searchLoop fuel g2 wins losses rest cap

/-- play_one, with the deck, the cap and the outer-loop fuel as
parameters: a fresh game on the given deck, zero tallies, empty work
stack. -/
def playOne (d : Deck) (cap fuel : Nat) : Option (Nat × Nat × Nat × SResult) :=
  searchLoop fuel (initGame d) 0 0 [] cap

/-! ## Flag consistency -/

/-- The correct value of the flag at distance d for position ix over a
card sequence: true exactly when both the position and its neighbour d to
the left exist and the two cards match. -/
def flagSpecC (cs : List Card) (ix d : Nat) : Bool :=
  ((cs[ix]?).bind fun a => (if d ≤ ix then cs[ix - d]? else none).bind fun b =>
    isMatchC a b).isSome

/-- Executable flag-consistency check: every position's matches_one and
matches_three equal the values recomputed from the current contents. -/
def flagsOK (t : List PlacedCard) : Bool :=
  (List.range t.length).all fun ix =>
    match t[ix]? with
    | none => true
    | some a => a.matches_one == flagSpecC (cardsOf t) ix 1 &&
                a.matches_three == flagSpecC (cardsOf t) ix 3

/-- Flag consistency at every position and flag except matches_three at
position k (matches_one is still required to be consistent at k). -/
def flagsOKExcept (k : Nat) (t : List PlacedCard) : Bool :=
  (List.range t.length).all fun ix =>
    match t[ix]? with
    | none => true
    | some a => a.matches_one == flagSpecC (cardsOf t) ix 1 &&
                (ix == k || a.matches_three == flagSpecC (cardsOf t) ix 3)

/-- Propositional form of flagsOK. -/
def FlagsOKP (t : List PlacedCard) : Prop :=
  ∀ j a, t[j]? = some a →
    a.matches_one = flagSpecC (cardsOf t) j 1 ∧
    a.matches_three = flagSpecC (cardsOf t) j 3

/-- Propositional form of flagsOKExcept. -/
def FlagsOKExceptP (k : Nat) (t : List PlacedCard) : Prop :=
  ∀ j a, t[j]? = some a →
    a.matches_one = flagSpecC (cardsOf t) j 1 ∧
    (j ≠ k → a.matches_three = flagSpecC (cardsOf t) j 3)

/-- Weak flag validity: a set flag implies its neighbour position exists
(index at least the distance).  This, unlike full consistency, is an
invariant of every reachable state. -/
def WvalidP (t : List PlacedCard) : Prop :=
  ∀ j a, t[j]? = some a →
    (a.matches_one = true → 1 ≤ j) ∧ (a.matches_three = true → 3 ≤ j)

/-- Game states reachable from a fresh deal: a fresh game on any
permutation of the 52 identities, closed under dealing, under resolving a
candidate reported by find_matches (this covers both forced moves and the
search's chosen moves), and under restoring a snapshot of a reachable
state into a reachable game (as the backtracking search does). -/
inductive Reachable : Game → Prop where
  | init (l : List Card) : l.Nodup → l.length = 52 → Reachable (initGame ⟨l, 0⟩)
  | deal {g g' : Game} : Reachable g → deal_card g = some g' → Reachable g'
  | choose {g g' : Game} {m : MatchMove} : Reachable g → m ∈ find_matches g.tableau →
      make_match g m = some g' → Reachable g'
  | restore_snap {g h : Game} : Reachable g → Reachable h →
      Reachable (restore h (save_game g))

/-! ## Basic lemmas about check_matches_at -/

theorem length_check_matches_at (t : List PlacedCard) (ix : Nat) :
    (check_matches_at t ix).length = t.length := by
  unfold check_matches_at
  split <;> simp

theorem cardsOf_set (t : List PlacedCard) (ix : Nat) (a : PlacedCard) :
    cardsOf (t.set ix a) = (cardsOf t).set ix a.card := by
  simp [cardsOf]

theorem getElem?_cardsOf (t : List PlacedCard) (j : Nat) :
    (cardsOf t)[j]? = (t[j]?).map (·.card) := by
  simp [cardsOf]

theorem length_cardsOf (t : List PlacedCard) : (cardsOf t).length = t.length := by
  simp [cardsOf]

theorem set_self_of_getElem? {α : Type} (l : List α) (i : Nat) (a : α)
    (h : l[i]? = some a) : l.set i a = l := by
  have hlt : i < l.length := by
    by_contra hc
    rw [List.getElem?_eq_none (by omega)] at h
    cases h
  apply List.ext_getElem?
  intro j
  rw [List.getElem?_set]
  by_cases hij : i = j
  · subst hij
    simp [hlt, h.symm]
  · simp [hij]

theorem cardsOf_check_matches_at (t : List PlacedCard) (ix : Nat) :
    cardsOf (check_matches_at t ix) = cardsOf t := by
  unfold check_matches_at
  split
  · next h =>
      rw [cardsOf_set]
      apply set_self_of_getElem?
      rw [getElem?_cardsOf, List.getElem?_eq_getElem h]
      rfl
  · rfl

theorem flag_compute (t : List PlacedCard) (a : PlacedCard) (ix d : Nat)
    (ha : t[ix]? = some a) :
    ((if d ≤ ix then t[ix - d]? else none).bind fun b => isMatch a b).isSome
      = flagSpecC (cardsOf t) ix d := by
  unfold flagSpecC
  rw [getElem?_cardsOf, getElem?_cardsOf, ha]
  by_cases hd : d ≤ ix
  · simp only [hd, if_true, Option.map_some']
    cases hb : t[ix - d]? <;> simp [isMatch]
  · simp [hd]

theorem getElem?_check_matches_at_ne (t : List PlacedCard) (ix j : Nat) (hne : j ≠ ix) :
    (check_matches_at t ix)[j]? = t[j]? := by
  unfold check_matches_at
  split
  · exact List.getElem?_set_ne (by omega)
  · rfl

theorem getElem?_check_matches_at_self (t : List PlacedCard) (ix : Nat) (a : PlacedCard)
    (ha : t[ix]? = some a) :
    (check_matches_at t ix)[ix]? =
      some ⟨a.card, flagSpecC (cardsOf t) ix 1, flagSpecC (cardsOf t) ix 3⟩ := by
  have h : ix < t.length := by
    by_contra hc
    rw [List.getElem?_eq_none (by omega)] at ha
    cases ha
  have hget : t.get ⟨ix, h⟩ = a := by
    rw [List.getElem?_eq_getElem h] at ha
    exact Option.some.inj ha
  unfold check_matches_at
  rw [dif_pos h]
  simp only [hget]
  rw [List.getElem?_set_self (by simpa using h)]
  rw [flag_compute t a ix 1 ha, flag_compute t a ix 3 ha]

theorem length_check3 (t : List PlacedCard) (ix : Nat) :
    (check3 t ix).length = t.length := by
  simp [check3, length_check_matches_at]

theorem cardsOf_check3 (t : List PlacedCard) (ix : Nat) :
    cardsOf (check3 t ix) = cardsOf t := by
  simp [check3, cardsOf_check_matches_at]

theorem getElem?_check3_out (t : List PlacedCard) (ix j : Nat)
    (hj : j < ix ∨ ix + 3 ≤ j) :
    (check3 t ix)[j]? = t[j]? := by
  unfold check3
  rw [getElem?_check_matches_at_ne _ _ _ (by omega),
      getElem?_check_matches_at_ne _ _ _ (by omega),
      getElem?_check_matches_at_ne _ _ _ (by omega)]

theorem getElem?_check3_win (t : List PlacedCard) (ix j : Nat) (a : PlacedCard)
    (h1 : ix ≤ j) (h2 : j < ix + 3) (ha : t[j]? = some a) :
    (check3 t ix)[j]? =
      some ⟨a.card, flagSpecC (cardsOf t) j 1, flagSpecC (cardsOf t) j 3⟩ := by
  unfold check3
  rcases (by omega : j = ix ∨ j = ix + 1 ∨ j = ix + 2) with h | h | h
  · subst h
    rw [getElem?_check_matches_at_ne _ _ _ (by omega),
        getElem?_check_matches_at_ne _ _ _ (by omega)]
    exact getElem?_check_matches_at_self t j a ha
  · subst h
    rw [getElem?_check_matches_at_ne _ _ _ (by omega)]
    have ha' : (check_matches_at t ix)[ix + 1]? = some a := by
      rw [getElem?_check_matches_at_ne _ _ _ (by omega)]; exact ha
    rw [getElem?_check_matches_at_self _ _ a ha', cardsOf_check_matches_at]
  · subst h
    have ha' : (check_matches_at (check_matches_at t ix) (ix + 1))[ix + 2]? = some a := by
      rw [getElem?_check_matches_at_ne _ _ _ (by omega),
          getElem?_check_matches_at_ne _ _ _ (by omega)]
      exact ha
    rw [getElem?_check_matches_at_self _ _ a ha', cardsOf_check_matches_at,
        cardsOf_check_matches_at]

/-! ## flagSpecC lemmas -/

theorem flagSpecC_congr {cs cs' : List Card} {ix d : Nat}
    (h1 : cs'[ix]? = cs[ix]?) (h2 : d ≤ ix → cs'[ix - d]? = cs[ix - d]?) :
    flagSpecC cs' ix d = flagSpecC cs ix d := by
  unfold flagSpecC
  rw [h1]
  by_cases hd : d ≤ ix
  · rw [if_pos hd, if_pos hd, h2 hd]
  · rw [if_neg hd, if_neg hd]

theorem flagSpecC_true_le {cs : List Card} {ix d : Nat}
    (h : flagSpecC cs ix d = true) : d ≤ ix := by
  by_contra hc
  unfold flagSpecC at h
  rw [if_neg hc] at h
  cases hx : cs[ix]? <;> rw [hx] at h <;> simp at h

theorem cardsOf_append (t s : List PlacedCard) :
    cardsOf (t ++ s) = cardsOf t ++ cardsOf s := by
  simp [cardsOf]

/-! ## flagsOK characterizations -/

theorem getElem?_some_lt {α : Type} {l : List α} {j : Nat} {a : α}
    (h : l[j]? = some a) : j < l.length := by
  by_contra hc
  rw [List.getElem?_eq_none (by omega)] at h
  cases h

theorem flagsOK_iff (t : List PlacedCard) : flagsOK t = true ↔ FlagsOKP t := by
  unfold flagsOK FlagsOKP
  rw [List.all_eq_true]
  constructor
  · intro h j a hja
    have := h j (List.mem_range.mpr (getElem?_some_lt hja))
    rw [hja] at this
    simp only [Bool.and_eq_true, beq_iff_eq] at this
    exact this
  · intro h ix _
    cases hja : t[ix]? with
    | none => simp
    | some a =>
        simp only [Bool.and_eq_true, beq_iff_eq]
        exact h ix a hja

theorem flagsOKExcept_iff (k : Nat) (t : List PlacedCard) :
    flagsOKExcept k t = true ↔ FlagsOKExceptP k t := by
  unfold flagsOKExcept FlagsOKExceptP
  rw [List.all_eq_true]
  constructor
  · intro h j a hja
    have := h j (List.mem_range.mpr (getElem?_some_lt hja))
    rw [hja] at this
    simp only [Bool.and_eq_true, Bool.or_eq_true, beq_iff_eq] at this
    refine ⟨this.1, fun hne => ?_⟩
    rcases this.2 with h' | h'
    · exact absurd h' hne
    · exact h'
  · intro h ix _
    cases hja : t[ix]? with
    | none => simp
    | some a =>
        simp only [Bool.and_eq_true, Bool.or_eq_true, beq_iff_eq]
        refine ⟨(h ix a hja).1, ?_⟩
        by_cases hk : ix = k
        · exact Or.inl hk
        · exact Or.inr ((h ix a hja).2 hk)

/-! ## Preservation of flag consistency -/

theorem deal_preserves_flagsOK {g g' : Game} (hok : FlagsOKP g.tableau)
    (hd : deal_card g = some g') : FlagsOKP g'.tableau := by
  unfold deal_card at hd
  cases hdraw : g.deck.draw with
  | none => rw [hdraw] at hd; cases hd
  | some cd =>
      rw [hdraw] at hd
      simp only [Option.map_some'] at hd
      injection hd with hd
      subst hd
      simp only []
      set t := g.tableau with ht
      set pc : PlacedCard := ⟨cd.1, false, false⟩ with hpc
      have hlen : (t ++ [pc]).length - 1 = t.length := by simp
      rw [hlen]
      intro j a hja
      rw [cardsOf_check_matches_at]
      by_cases hj : j = t.length
      · subst hj
        rw [getElem?_check_matches_at_self (t ++ [pc]) t.length pc
              (List.getElem?_concat_length t pc)] at hja
        injection hja with hja
        subst hja
        exact ⟨rfl, rfl⟩
      · rw [getElem?_check_matches_at_ne _ _ _ hj] at hja
        have hjl : j < t.length := by
          have := getElem?_some_lt hja
          simp at this
          omega
        rw [List.getElem?_append_left hjl] at hja
        have hold := hok j a hja
        have hle : (cardsOf t).length = t.length := length_cardsOf t
        have e1 : ∀ d : Nat, flagSpecC (cardsOf (t ++ [pc])) j d = flagSpecC (cardsOf t) j d := by
          intro d
          apply flagSpecC_congr
          · rw [cardsOf_append]
            exact List.getElem?_append_left (by omega)
          · intro _
            rw [cardsOf_append]
            exact List.getElem?_append_left (by omega)
        rw [e1 1, e1 3]
        exact hold

theorem map_eraseIdx {α β : Type} (f : α → β) :
    ∀ (l : List α) (i : Nat), (l.eraseIdx i).map f = (l.map f).eraseIdx i
  | [], _ => rfl
  | _ :: _, 0 => rfl
  | a :: l, i + 1 => by
      simp only [List.eraseIdx_cons_succ, List.map_cons]
      rw [map_eraseIdx f l i]

theorem cardsOf_eraseIdx (t : List PlacedCard) (ix : Nat) :
    cardsOf (t.eraseIdx ix) = (cardsOf t).eraseIdx ix :=
  map_eraseIdx _ t ix

theorem flagSpecC_eraseIdx (cs : List Card) (ix j d : Nat)
    (hd : d ≤ j) (hix : ix + d ≤ j) :
    flagSpecC (cs.eraseIdx ix) j d = flagSpecC cs (j + 1) d := by
  unfold flagSpecC
  rw [List.getElem?_eraseIdx_of_ge _ _ _ (by omega)]
  rw [if_pos hd, if_pos (by omega : d ≤ j + 1)]
  rw [List.getElem?_eraseIdx_of_ge _ _ _ (by omega : ix ≤ j - d)]
  have : j - d + 1 = j + 1 - d := by omega
  rw [this]

theorem remove_preserves_flagsOK {t : List PlacedCard} {ix : Nat} {c : Card}
    {t' : List PlacedCard} (hok : FlagsOKP t)
    (hr : remove_card t ix = some (c, t')) : FlagsOKP t' := by
  unfold remove_card at hr
  cases hix : t[ix]? with
  | none => rw [hix] at hr; cases hr
  | some pc =>
      rw [hix] at hr
      injection hr with hr
      injection hr with hc ht'
      subst ht'
      intro j a hja
      rw [cardsOf_check3]
      have hjl : j < (t.eraseIdx ix).length := by
        have := getElem?_some_lt hja
        rw [length_check3] at this
        exact this
      by_cases hcase : ix ≤ j ∧ j < ix + 3
      · obtain ⟨b, hb⟩ : ∃ b, (t.eraseIdx ix)[j]? = some b :=
          ⟨_, List.getElem?_eq_getElem hjl⟩
        rw [getElem?_check3_win _ ix j b hcase.1 hcase.2 hb] at hja
        injection hja with hja
        subst hja
        exact ⟨rfl, rfl⟩
      · rw [getElem?_check3_out _ ix j (by omega)] at hja
        rcases (by omega : j < ix ∨ ix + 3 ≤ j) with hj | hj
        · rw [List.getElem?_eraseIdx_of_lt _ _ _ hj] at hja
          have hold := hok j a hja
          have e1 : ∀ d : Nat, d ≤ 3 →
              flagSpecC (cardsOf (t.eraseIdx ix)) j d = flagSpecC (cardsOf t) j d := by
            intro d _
            rw [cardsOf_eraseIdx]
            apply flagSpecC_congr
            · exact List.getElem?_eraseIdx_of_lt _ _ _ hj
            · intro _
              exact List.getElem?_eraseIdx_of_lt _ _ _ (by omega)
          rw [e1 1 (by omega), e1 3 (by omega)]
          exact hold
        · rw [List.getElem?_eraseIdx_of_ge _ _ _ (by omega)] at hja
          have hold := hok (j + 1) a hja
          have e1 : ∀ d : Nat, d ≤ 3 →
              flagSpecC (cardsOf (t.eraseIdx ix)) j d = flagSpecC (cardsOf t) (j + 1) d := by
            intro d hd3
            rw [cardsOf_eraseIdx]
            exact flagSpecC_eraseIdx _ _ _ _ (by omega) (by omega)
          rw [e1 1 (by omega), e1 3 (by omega)]
          exact hold

theorem place_preserves_except {t : List PlacedCard} {c : Card} {ix : Nat}
    {t' : List PlacedCard} (hok : FlagsOKP t)
    (hp : place_card t c ix = some t') : FlagsOKExceptP (ix + 3) t' := by
  unfold place_card at hp
  split at hp
  case isFalse => cases hp
  case isTrue hlt =>
    injection hp with hp
    subst hp
    intro j a hja
    rw [cardsOf_check3]
    have hjl : j < (t.set ix ⟨c, false, false⟩).length := by
      have := getElem?_some_lt hja
      rw [length_check3] at this
      exact this
    by_cases hcase : ix ≤ j ∧ j < ix + 3
    · obtain ⟨b, hb⟩ : ∃ b, (t.set ix ⟨c, false, false⟩)[j]? = some b :=
        ⟨_, List.getElem?_eq_getElem hjl⟩
      rw [getElem?_check3_win _ ix j b hcase.1 hcase.2 hb] at hja
      injection hja with hja
      subst hja
      exact ⟨rfl, fun _ => rfl⟩
    · rw [getElem?_check3_out _ ix j (by omega)] at hja
      have hne : j ≠ ix := by omega
      rw [List.getElem?_set_ne (by omega)] at hja
      have hold := hok j a hja
      have e1 : ∀ d : Nat, j - d ≠ ix →
          flagSpecC (cardsOf (t.set ix ⟨c, false, false⟩)) j d = flagSpecC (cardsOf t) j d := by
        intro d hd
        rw [cardsOf_set]
        apply flagSpecC_congr
        · exact List.getElem?_set_ne (by omega)
        · intro _
          exact List.getElem?_set_ne (by omega)
      rcases (by omega : j < ix ∨ ix + 3 ≤ j) with hj | hj
      · refine ⟨?_, fun _ => ?_⟩
        · rw [e1 1 (by omega)]; exact hold.1
        · rw [e1 3 (by omega)]; exact hold.2
      · refine ⟨?_, fun hjk => ?_⟩
        · rw [e1 1 (by omega)]; exact hold.1
        · rw [e1 3 (by omega)]; exact hold.2

/-! ## find_matches membership -/

theorem mem_fmAux (ix d : Nat) :
    ∀ (t : List PlacedCard) (s : Nat),
    ((ix, d) ∈ fmAux s t ↔ ∃ j a, t[j]? = some a ∧ ix = s + j ∧
      ((d = 1 ∧ a.matches_one = true) ∨ (d = 3 ∧ a.matches_three = true)))
  | [], s => by simp [fmAux]
  | c :: rest, s => by
      unfold fmAux
      simp only [List.mem_append]
      constructor
      · intro h
        rcases h with (h | h) | h
        · refine ⟨0, c, by simp, ?_⟩
          split at h <;> simp at h
          obtain ⟨h1, h2⟩ := h
          subst h1; subst h2
          next hm => exact ⟨by omega, Or.inl ⟨rfl, hm⟩⟩
        · refine ⟨0, c, by simp, ?_⟩
          split at h <;> simp at h
          obtain ⟨h1, h2⟩ := h
          subst h1; subst h2
          next hm => exact ⟨by omega, Or.inr ⟨rfl, hm⟩⟩
        · obtain ⟨j, a, hja, hix, hflag⟩ := (mem_fmAux ix d rest (s + 1)).mp h
          exact ⟨j + 1, a, by simpa using hja, by omega, hflag⟩
      · rintro ⟨j, a, hja, hix, hflag⟩
        cases j with
        | zero =>
            rw [List.getElem?_cons_zero] at hja
            injection hja with hja
            subst hja
            rcases hflag with ⟨hd1, hm⟩ | ⟨hd3, hm⟩
            · subst hd1
              refine Or.inl (Or.inl ?_)
              rw [hm]
              simp [hix]
            · subst hd3
              refine Or.inl (Or.inr ?_)
              rw [hm]
              simp [hix]
        | succ k =>
            refine Or.inr ((mem_fmAux ix d rest (s + 1)).mpr ?_)
            exact ⟨k, a, by simpa using hja, by omega, hflag⟩

theorem mem_find_matches {t : List PlacedCard} {ix d : Nat} :
    (ix, d) ∈ find_matches t ↔ ∃ a, t[ix]? = some a ∧
      ((d = 1 ∧ a.matches_one = true) ∨ (d = 3 ∧ a.matches_three = true)) := by
  unfold find_matches
  rw [mem_fmAux]
  constructor
  · rintro ⟨j, a, hja, hix, hflag⟩
    have : j = ix := by omega
    subst this
    exact ⟨a, hja, hflag⟩
  · rintro ⟨a, hja, hflag⟩
    exact ⟨ix, a, hja, by omega, hflag⟩

/-! ## make_match success and shape -/

theorem remove_card_eq {t : List PlacedCard} {ix : Nat} {pc : PlacedCard}
    (h : t[ix]? = some pc) :
    remove_card t ix = some (pc.card, check3 (t.eraseIdx ix) ix) := by
  unfold remove_card
  rw [h]

set_option maxHeartbeats 1000000 in
theorem make_match_t_some {t : List PlacedCard} {ix d : Nat} {pc : PlacedCard}
    (h : t[ix]? = some pc) (h1 : 1 ≤ d) (hd : d ≤ ix) :
    make_match_t t (ix, d) =
      some (check3 ((check3 (t.eraseIdx ix) ix).set (ix - d) ⟨pc.card, false, false⟩)
        (ix - d)) := by
  have hlt : ix < t.length := getElem?_some_lt h
  have hcond : ix - d < (check3 (t.eraseIdx ix) ix).length := by
    rw [length_check3, List.length_eraseIdx_of_lt hlt]
    omega
  unfold make_match_t
  rw [if_pos hd, remove_card_eq h]
  simp only [Option.some_bind]
  unfold place_card
  rw [if_pos hcond]

set_option maxHeartbeats 1000000 in
theorem make_match_t_length {t t' : List PlacedCard} {ix d : Nat}
    (hmm : make_match_t t (ix, d) = some t') : t'.length + 1 = t.length := by
  unfold make_match_t at hmm
  split at hmm
  case isFalse => cases hmm
  case isTrue hd =>
    cases hix : t[ix]? with
    | none => unfold remove_card at hmm; rw [hix] at hmm; cases hmm
    | some pc =>
        rw [remove_card_eq hix] at hmm
        simp only [Option.some_bind] at hmm
        unfold place_card at hmm
        split at hmm
        case isFalse => cases hmm
        case isTrue hlt =>
            have hmm2 := Option.some.inj hmm
            subst hmm2
            have hixlt : ix < t.length := getElem?_some_lt hix
            rw [length_check3, List.length_set, length_check3,
                List.length_eraseIdx_of_lt hixlt]
            omega

set_option maxHeartbeats 1000000 in
theorem make_match_t_two_le {t t' : List PlacedCard} {m : MatchMove}
    (hmm : make_match_t t m = some t') : 2 ≤ t.length := by
  unfold make_match_t at hmm
  split at hmm
  case isFalse => cases hmm
  case isTrue hd =>
    cases hr : remove_card t m.1 with
    | none => rw [hr] at hmm; cases hmm
    | some pr =>
        obtain ⟨c1, t1⟩ := pr
        rw [hr] at hmm
        simp only [Option.some_bind] at hmm
        unfold place_card at hmm
        split at hmm
        case isFalse => cases hmm
        case isTrue hlt =>
          unfold remove_card at hr
          cases hix : t[m.1]? with
          | none => rw [hix] at hr; cases hr
          | some pc =>
              rw [hix] at hr
              injection hr with hr
              injection hr with h1 h2
              have hixlt := getElem?_some_lt hix
              rw [← h2, length_check3, List.length_eraseIdx_of_lt hixlt] at hlt
              omega

theorem make_match_t_cards {t t' : List PlacedCard} {ix d : Nat} {pc : PlacedCard}
    (h : t[ix]? = some pc) (h1 : 1 ≤ d) (hd : d ≤ ix)
    (hmm : make_match_t t (ix, d) = some t') :
    cardsOf t' = ((cardsOf t).eraseIdx ix).set (ix - d) pc.card := by
  rw [make_match_t_some h h1 hd] at hmm
  have hmm2 := Option.some.inj hmm
  subst hmm2
  rw [cardsOf_check3, cardsOf_set, cardsOf_check3, cardsOf_eraseIdx]

theorem make_match_t_except {t t' : List PlacedCard} {ix d : Nat}
    (hok : FlagsOKP t) (hmm : make_match_t t (ix, d) = some t') :
    FlagsOKExceptP (ix - d + 3) t' := by
  unfold make_match_t at hmm
  split at hmm
  case isFalse => cases hmm
  case isTrue hd =>
    cases hr : remove_card t ix with
    | none => rw [hr] at hmm; cases hmm
    | some pr =>
        rw [hr] at hmm
        simp only [Option.some_bind] at hmm
        obtain ⟨c, t1⟩ := pr
        exact place_preserves_except (remove_preserves_flagsOK hok hr) hmm

/-! ## Weak flag validity is preserved by every operation -/

theorem Wvalid_check_matches_at_of {base : List PlacedCard} {ix : Nat}
    (h : ∀ j a, base[j]? = some a → j ≠ ix →
      (a.matches_one = true → 1 ≤ j) ∧ (a.matches_three = true → 3 ≤ j)) :
    WvalidP (check_matches_at base ix) := by
  intro j a hja
  by_cases hj : j = ix
  · subst hj
    cases hb : base[j]? with
    | none =>
        have hlen : base.length ≤ j := by
          by_contra hc2
          rw [List.getElem?_eq_getElem (by omega)] at hb
          cases hb
        have hnone : (check_matches_at base j)[j]? = none := by
          rw [List.getElem?_eq_none]
          rw [length_check_matches_at]
          exact hlen
        rw [hnone] at hja
        cases hja
    | some b =>
        rw [getElem?_check_matches_at_self base j b hb] at hja
        have := Option.some.inj hja
        subst this
        constructor
        · intro hm; exact flagSpecC_true_le hm
        · intro hm; exact flagSpecC_true_le hm
  · rw [getElem?_check_matches_at_ne _ _ _ hj] at hja
    exact h j a hja hj

theorem Wvalid_check3_of {base : List PlacedCard} {ix : Nat}
    (h : ∀ j a, base[j]? = some a → (j < ix ∨ ix + 3 ≤ j) →
      (a.matches_one = true → 1 ≤ j) ∧ (a.matches_three = true → 3 ≤ j)) :
    WvalidP (check3 base ix) := by
  intro j a hja
  by_cases hcase : ix ≤ j ∧ j < ix + 3
  · have hjl : j < base.length := by
      have := getElem?_some_lt hja
      rw [length_check3] at this
      exact this
    obtain ⟨b, hb⟩ : ∃ b, base[j]? = some b := ⟨_, List.getElem?_eq_getElem hjl⟩
    rw [getElem?_check3_win _ ix j b hcase.1 hcase.2 hb] at hja
    have := Option.some.inj hja
    subst this
    exact ⟨fun hm => flagSpecC_true_le hm, fun hm => flagSpecC_true_le hm⟩
  · rw [getElem?_check3_out _ ix j (by omega)] at hja
    exact h j a hja (by omega)

theorem remove_card_Wvalid {t : List PlacedCard} {ix : Nat} {c : Card}
    {t1 : List PlacedCard} (hw : WvalidP t)
    (hr : remove_card t ix = some (c, t1)) : WvalidP t1 := by
  unfold remove_card at hr
  cases hix : t[ix]? with
  | none => rw [hix] at hr; cases hr
  | some pc =>
      rw [hix] at hr
      injection hr with hr
      injection hr with hc ht1
      subst ht1
      apply Wvalid_check3_of
      intro j a hja hout
      rcases hout with hj | hj
      · rw [List.getElem?_eraseIdx_of_lt _ _ _ hj] at hja
        exact hw j a hja
      · exact ⟨fun _ => by omega, fun _ => by omega⟩

theorem place_card_Wvalid {t : List PlacedCard} {c : Card} {ix : Nat}
    {t1 : List PlacedCard} (hw : WvalidP t)
    (hp : place_card t c ix = some t1) : WvalidP t1 := by
  unfold place_card at hp
  split at hp
  case isFalse => cases hp
  case isTrue hlt =>
    have hp2 := Option.some.inj hp
    subst hp2
    apply Wvalid_check3_of
    intro j a hja hout
    rw [List.getElem?_set_ne (by omega)] at hja
    exact hw j a hja

theorem make_match_t_Wvalid {t t' : List PlacedCard} {m : MatchMove}
    (hw : WvalidP t) (hmm : make_match_t t m = some t') : WvalidP t' := by
  unfold make_match_t at hmm
  split at hmm
  case isFalse => cases hmm
  case isTrue hd =>
    cases hr : remove_card t m.1 with
    | none => rw [hr] at hmm; cases hmm
    | some pr =>
        rw [hr] at hmm
        simp only [Option.some_bind] at hmm
        obtain ⟨c, t1⟩ := pr
        exact place_card_Wvalid (remove_card_Wvalid hw hr) hmm

theorem deal_card_Wvalid {g g' : Game} (hw : WvalidP g.tableau)
    (hd : deal_card g = some g') : WvalidP g'.tableau := by
  unfold deal_card at hd
  cases hdraw : g.deck.draw with
  | none => rw [hdraw] at hd; cases hd
  | some cd =>
      rw [hdraw] at hd
      simp only [Option.map_some'] at hd
      injection hd with hd
      subst hd
      simp only []
      have hlen : (g.tableau ++ [(⟨cd.1, false, false⟩ : PlacedCard)]).length - 1
          = g.tableau.length := by simp
      rw [hlen]
      apply Wvalid_check_matches_at_of
      intro j a hja hj
      have hjl : j < g.tableau.length := by
        have := getElem?_some_lt hja
        simp at this
        omega
      rw [List.getElem?_append_left hjl] at hja
      exact hw j a hja

theorem make_match_Wvalid {g g' : Game} {m : MatchMove} (hw : WvalidP g.tableau)
    (hmm : make_match g m = some g') : WvalidP g'.tableau := by
  unfold make_match at hmm
  cases ht : make_match_t g.tableau m with
  | none => rw [ht] at hmm; cases hmm
  | some t' =>
      rw [ht] at hmm
      simp only [Option.map_some'] at hmm
      injection hmm with hmm
      subst hmm
      exact make_match_t_Wvalid hw ht

/-! ## Invariants of reachable states -/

theorem reachable_Wvalid {g : Game} (h : Reachable g) : WvalidP g.tableau := by
  induction h with
  | init l hn hl => intro j a hja; cases hja
  | deal _ hd ih => exact deal_card_Wvalid ih hd
  | choose _ _ hmm ih => exact make_match_Wvalid ih hmm
  | restore_snap _ _ ihg _ => exact ihg

theorem reachable_decklen {g : Game} (h : Reachable g) : g.deck.list.length = 52 := by
  induction h with
  | init l hn hl => exact hl
  | @deal g g' _ hd ih =>
      unfold deal_card Deck.draw at hd
      split at hd
      · simp only [Option.map_some'] at hd
        injection hd with hd
        subst hd
        exact ih
      · cases hd
  | @choose g g' m _ _ hmm ih =>
      unfold make_match at hmm
      cases ht : make_match_t g.tableau m with
      | none => rw [ht] at hmm; cases hmm
      | some t' =>
          rw [ht] at hmm
          simp only [Option.map_some'] at hmm
          injection hmm with hmm
          subst hmm
          exact ih
  | restore_snap _ _ _ ihh => exact ihh

theorem reachable_empty_pos {g : Game} (h : Reachable g) :
    g.tableau = [] → g.deck.pos = 0 := by
  induction h with
  | init l hn hl => intro _; rfl
  | @deal g g' _ hd ih =>
      intro he
      exfalso
      unfold deal_card at hd
      cases hdraw : g.deck.draw with
      | none => rw [hdraw] at hd; cases hd
      | some cd =>
          rw [hdraw] at hd
          simp only [Option.map_some'] at hd
          injection hd with hd
          have : g'.tableau.length =
              (g.tableau ++ [(⟨cd.1, false, false⟩ : PlacedCard)]).length := by
            rw [← hd]
            simp only []
            rw [length_check_matches_at]
          rw [he] at this
          simp at this
  | @choose g g' m _ _ hmm ih =>
      intro he
      exfalso
      unfold make_match at hmm
      cases ht : make_match_t g.tableau m with
      | none => rw [ht] at hmm; cases hmm
      | some t' =>
          rw [ht] at hmm
          simp only [Option.map_some'] at hmm
          injection hmm with hmm
          have hlen := make_match_t_length ht
          have ht'e : t' = [] := by
            rw [← he, ← hmm]
          rw [ht'e] at hlen
          -- t'.length + 1 = g.tableau.length and t' = [] gives length 1,
          -- but a successful make_match needs at least two cards
          have := make_match_t_two_le ht
          simp at hlen
          omega
  | restore_snap hg _ ihg _ =>
      intro he
      exact ihg he

/-! ## Shape of deal_card and make_match at the game level -/

theorem deal_card_props {g g' : Game} (hd : deal_card g = some g') :
    g'.deck.list = g.deck.list ∧ g'.deck.pos = g.deck.pos + 1 ∧
    g.deck.pos < g.deck.list.length ∧ g'.choice_points = g.choice_points ∧
    g'.tableau.length = g.tableau.length + 1 := by
  unfold deal_card Deck.draw at hd
  split at hd
  case isFalse => cases hd
  case isTrue hlt =>
    simp only [Option.map_some'] at hd
    injection hd with hd
    subst hd
    refine ⟨rfl, rfl, hlt, rfl, ?_⟩
    simp only []
    rw [length_check_matches_at]
    simp

theorem make_match_props {g g' : Game} {m : MatchMove}
    (hmm : make_match g m = some g') :
    g'.deck = g.deck ∧ g'.choice_points = g.choice_points ∧
    g'.tableau.length + 1 = g.tableau.length := by
  unfold make_match at hmm
  cases ht : make_match_t g.tableau m with
  | none => rw [ht] at hmm; cases hmm
  | some t' =>
      rw [ht] at hmm
      simp only [Option.map_some'] at hmm
      injection hmm with hmm
      subst hmm
      exact ⟨rfl, rfl, make_match_t_length ht⟩

/-! ## play_to_choice: unfolding equations -/

theorem playToChoiceFuel_succ (fuel : Nat) (g : Game) :
    playToChoiceFuel (fuel + 1) g =
      match find_matches g.tableau with
      | [] =>
          match deal_card g with
          | some g' => playToChoiceFuel fuel g'
          | none =>
              if g.tableau.length = 1 then some (.GameWon, g) else some (.GameLost, g)
      | [m] =>
          match make_match g m with
          | some g' => playToChoiceFuel fuel g'
          | none => none
      | ms =>
          some (.ChooseOne ms, { g with choice_points := g.choice_points + 1 }) := rfl

theorem ptc_succ_nil_none {g : Game} (fuel : Nat)
    (hfm : find_matches g.tableau = []) (hd : deal_card g = none) :
    playToChoiceFuel (fuel + 1) g =
      if g.tableau.length = 1 then some (.GameWon, g) else some (.GameLost, g) := by
  rw [playToChoiceFuel_succ, hfm, hd]

theorem ptc_succ_nil_some {g g' : Game} (fuel : Nat)
    (hfm : find_matches g.tableau = []) (hd : deal_card g = some g') :
    playToChoiceFuel (fuel + 1) g = playToChoiceFuel fuel g' := by
  rw [playToChoiceFuel_succ, hfm, hd]

theorem ptc_succ_single_eq {g : Game} {m : MatchMove} (fuel : Nat)
    (hfm : find_matches g.tableau = [m]) :
    playToChoiceFuel (fuel + 1) g =
      match make_match g m with
      | some g2 => playToChoiceFuel fuel g2
      | none => none := by
  rw [playToChoiceFuel_succ, hfm]

theorem ptc_succ_single {g g' : Game} {m : MatchMove} (fuel : Nat)
    (hfm : find_matches g.tableau = [m]) (hmm : make_match g m = some g') :
    playToChoiceFuel (fuel + 1) g = playToChoiceFuel fuel g' := by
  rw [ptc_succ_single_eq fuel hfm, hmm]

theorem ptc_succ_single_none {g : Game} {m : MatchMove} (fuel : Nat)
    (hfm : find_matches g.tableau = [m]) (hmm : make_match g m = none) :
    playToChoiceFuel (fuel + 1) g = none := by
  rw [ptc_succ_single_eq fuel hfm, hmm]

theorem ptc_succ_multi {g : Game} {a b : MatchMove} {rest : List MatchMove} (fuel : Nat)
    (hfm : find_matches g.tableau = a :: b :: rest) :
    playToChoiceFuel (fuel + 1) g =
      some (.ChooseOne (a :: b :: rest),
        { g with choice_points := g.choice_points + 1 }) := by
  rw [playToChoiceFuel_succ, hfm]

/-! ## A ChooseOne outcome: counter bumped by one, list of length at least
two, list equal to find_matches of the returned state -/

theorem ptc_ChooseOne_props :
    ∀ {fuel : Nat} {g : Game} {c : List MatchMove} {g' : Game},
    playToChoiceFuel fuel g = some (.ChooseOne c, g') →
    g'.choice_points = g.choice_points + 1 ∧ 2 ≤ c.length ∧
    c = find_matches g'.tableau := by
  intro fuel
  induction fuel with
  | zero => intro g c g' h; cases h
  | succ fuel ih =>
      intro g c g' h
      cases hfm : find_matches g.tableau with
      | nil =>
          cases hd : deal_card g with
          | none =>
              rw [ptc_succ_nil_none fuel hfm hd] at h
              split at h <;> cases h
          | some g2 =>
              rw [ptc_succ_nil_some fuel hfm hd] at h
              have := ih h
              rw [(deal_card_props hd).2.2.2.1] at this
              exact this
      | cons a tl =>
          cases tl with
          | nil =>
              cases hmm : make_match g a with
              | none =>
                  rw [ptc_succ_single_none fuel hfm hmm] at h
                  cases h
              | some g2 =>
                  rw [ptc_succ_single fuel hfm hmm] at h
                  have := ih h
                  rw [(make_match_props hmm).2.1] at this
                  exact this
          | cons b rest =>
              rw [ptc_succ_multi fuel hfm] at h
              injection h with h
              injection h with h1 h2
              injection h1 with h1
              subst h1
              subst h2
              exact ⟨rfl, by simp, by rw [hfm]⟩

/-! ## Termination of play_to_choice -/

theorem ptc_total :
    ∀ (fuel : Nat) (g : Game), WvalidP g.tableau → ptcMeasure g < fuel →
    (playToChoiceFuel fuel g).isSome := by
  intro fuel
  induction fuel with
  | zero => intro g _ h; omega
  | succ fuel ih =>
      intro g hw hme
      cases hfm : find_matches g.tableau with
      | nil =>
          cases hd : deal_card g with
          | none =>
              rw [ptc_succ_nil_none fuel hfm hd]
              split <;> simp
          | some g2 =>
              rw [ptc_succ_nil_some fuel hfm hd]
              apply ih g2 (deal_card_Wvalid hw hd)
              obtain ⟨hl, hp, hplt, _, htl⟩ := deal_card_props hd
              unfold ptcMeasure at hme ⊢
              rw [hl, hp, htl]
              omega
      | cons a tl =>
          cases tl with
          | nil =>
              obtain ⟨ix, d⟩ := a
              -- the forced match: its flag is set, so Wvalid puts it in range
              have hmem : (ix, d) ∈ find_matches g.tableau := by
                rw [hfm]
                simp
              obtain ⟨pc, hpc, hflag⟩ := mem_find_matches.mp hmem
              have hd1 : 1 ≤ d := by
                rcases hflag with ⟨h1, _⟩ | ⟨h3, _⟩ <;> omega
              have hda : d ≤ ix := by
                have hwa := hw ix pc hpc
                rcases hflag with ⟨h1, hm⟩ | ⟨h3, hm⟩
                · have := hwa.1 hm; omega
                · have := hwa.2 hm; omega
              have hsome := make_match_t_some hpc hd1 hda
              have hmm : make_match g (ix, d) = some
                  { g with tableau := check3 ((check3 (g.tableau.eraseIdx ix) ix).set
                      (ix - d) ⟨pc.card, false, false⟩) (ix - d) } := by
                unfold make_match
                rw [hsome]
                rfl
              rw [ptc_succ_single fuel hfm hmm]
              apply ih _ (make_match_Wvalid hw hmm)
              obtain ⟨hdeck, _, hlen⟩ := make_match_props hmm
              unfold ptcMeasure at hme ⊢
              rw [hdeck]
              omega
          | cons b rest =>
              rw [ptc_succ_multi fuel hfm]
              simp

theorem playToChoice_isSome {g : Game} (hw : WvalidP g.tableau) :
    (playToChoice g).isSome := by
  unfold playToChoice
  exact ptc_total (ptcMeasure g + 1) g hw (by omega)

/-! ## A reachable game state with a stale matches_three flag

Deck prefix (identities): 49 = J spades, 1 = 2 clubs, 15 = 3 diamonds,
30 = 5 hearts, 23 = J diamonds, 32 = 7 hearts, 43 = 5 spades.  Dealing
these seven cards produces no match until the last deal flags (6, 3)
(5 spades matches 5 hearts by rank).  Resolving it overwrites slot 3 and
flags (3, 3) (5 spades matches J spades by suit).  Resolving that one
removes position 3 and overwrites slot 0; position 3 then holds J diamonds
with matches_three still set from its comparison against J spades, but the
card three to its left is now 5 spades — a stale flag. -/

def cePrefix : List Card := [49, 1, 15, 30, 23, 32, 43]

def ceDeck : List Card :=
  cePrefix ++ (List.finRange 52).filter (fun c => c ∉ cePrefix)

def ceG0 : Game := initGame ⟨ceDeck, 0⟩

/-- Deal n cards in sequence (getD keeps the state on a failed deal; the
deals used below all succeed). -/
def dealN : Nat → Game → Game
  | 0, g => g
  | n + 1, g => (deal_card (dealN n g)).getD (dealN n g)

def ceG7 : Game := dealN 7 ceG0

def ceG8 : Game := (make_match ceG7 (6, 3)).getD ceG7

def ceG9 : Game := (make_match ceG8 (3, 3)).getD ceG8

set_option maxHeartbeats 2000000 in
theorem ceG9_reachable : Reachable ceG9 := by
  have h0 : Reachable ceG0 := Reachable.init ceDeck (by decide) (by decide)
  have h1 : Reachable (dealN 1 ceG0) :=
    Reachable.deal h0 (by decide : deal_card (dealN 0 ceG0) = some (dealN 1 ceG0))
  have h2 : Reachable (dealN 2 ceG0) :=
    Reachable.deal h1 (by decide : deal_card (dealN 1 ceG0) = some (dealN 2 ceG0))
  have h3 : Reachable (dealN 3 ceG0) :=
    Reachable.deal h2 (by decide : deal_card (dealN 2 ceG0) = some (dealN 3 ceG0))
  have h4 : Reachable (dealN 4 ceG0) :=
    Reachable.deal h3 (by decide : deal_card (dealN 3 ceG0) = some (dealN 4 ceG0))
  have h5 : Reachable (dealN 5 ceG0) :=
    Reachable.deal h4 (by decide : deal_card (dealN 4 ceG0) = some (dealN 5 ceG0))
  have h6 : Reachable (dealN 6 ceG0) :=
    Reachable.deal h5 (by decide : deal_card (dealN 5 ceG0) = some (dealN 6 ceG0))
  have h7 : Reachable ceG7 :=
    Reachable.deal h6 (by decide : deal_card (dealN 6 ceG0) = some ceG7)
  have h8 : Reachable ceG8 :=
    Reachable.choose h7 (by decide : ((6, 3) : MatchMove) ∈ find_matches ceG7.tableau)
      (by decide : make_match ceG7 (6, 3) = some ceG8)
  exact Reachable.choose h8 (by decide : ((3, 3) : MatchMove) ∈ find_matches ceG8.tableau)
    (by decide : make_match ceG8 (3, 3) = some ceG9)

/-- C1: the claim states that every reachable state has fully consistent
flags after any structural change.  This is false: the reachable state
ceG9 (seven deals from a concrete permutation of the 52 identities,
followed by the two forced matches reported by find_matches) carries a
stale matches_three flag at position 3, because place_card only rechecks
positions ix..ix+2, leaving the slot three to the right of an overwrite
unexamined. -/
theorem C1_counterexample : ∃ g : Game, Reachable g ∧ flagsOK g.tableau = false :=
  ⟨ceG9, ceG9_reachable, by decide⟩

/-- C1 (amended): deal_card and remove_card preserve full flag
consistency; place_card at ix started from a consistent tableau leaves
every flag consistent except possibly matches_three at position ix + 3
(matches_one is consistent everywhere), and likewise a full make_match
with candidate (ix, d) leaves every flag consistent except possibly
matches_three at position ix - d + 3, three to the right of the
overwritten slot. -/
theorem C1_flag_consistency_amended :
    (∀ g g' : Game, flagsOK g.tableau = true → deal_card g = some g' →
        flagsOK g'.tableau = true) ∧
    (∀ (t : List PlacedCard) (ix : Nat) (c : Card) (t' : List PlacedCard),
        flagsOK t = true → remove_card t ix = some (c, t') →
        flagsOK t' = true) ∧
    (∀ (t : List PlacedCard) (c : Card) (ix : Nat) (t' : List PlacedCard),
        flagsOK t = true → place_card t c ix = some t' →
        flagsOKExcept (ix + 3) t' = true) ∧
    (∀ (t : List PlacedCard) (ix d : Nat) (t' : List PlacedCard),
        flagsOK t = true → make_match_t t (ix, d) = some t' →
        flagsOKExcept (ix - d + 3) t' = true) := by
  refine ⟨?_, ?_, ?_, ?_⟩
  · intro g g' hok hd
    exact (flagsOK_iff _).mpr (deal_preserves_flagsOK ((flagsOK_iff _).mp hok) hd)
  · intro t ix c t' hok hr
    exact (flagsOK_iff _).mpr (remove_preserves_flagsOK ((flagsOK_iff _).mp hok) hr)
  · intro t c ix t' hok hp
    exact (flagsOKExcept_iff _ _).mpr (place_preserves_except ((flagsOK_iff _).mp hok) hp)
  · intro t ix d t' hok hmm
    exact (flagsOKExcept_iff _ _).mpr (make_match_t_except ((flagsOK_iff _).mp hok) hmm)

/-- Witness for the amended C1: dealing the first card of the unshuffled
deck onto the empty (trivially consistent) tableau yields a consistent
tableau. -/
theorem C1_flag_consistency_amended_witness :
    flagsOK ((deal_card (initGame Deck.new_unshuffled)).getD
      (initGame Deck.new_unshuffled)).tableau = true :=
  C1_flag_consistency_amended.1 (initGame Deck.new_unshuffled) _ (by decide) (by decide)

/-- C2: a candidate (ix, d) reported by find_matches with d ≤ ix resolves
successfully; the deck and the choice counter are untouched, the tableau
shrinks by exactly one, slot ix - d now holds the card removed from
position ix, every slot left of ix other than ix - d is unchanged, and
every slot from ix on holds the card previously one position further
right. -/
theorem C2_make_match_frame :
    ∀ (g : Game) (ix d : Nat), (ix, d) ∈ find_matches g.tableau → d ≤ ix →
    ∃ g', make_match g (ix, d) = some g' ∧
      g'.deck = g.deck ∧ g'.choice_points = g.choice_points ∧
      g'.tableau.length + 1 = g.tableau.length ∧
      (cardsOf g'.tableau)[ix - d]? = (cardsOf g.tableau)[ix]? ∧
      (∀ j, j < ix → j ≠ ix - d →
        (cardsOf g'.tableau)[j]? = (cardsOf g.tableau)[j]?) ∧
      (∀ j, ix ≤ j → (cardsOf g'.tableau)[j]? = (cardsOf g.tableau)[j + 1]?) := by
  intro g ix d hmem hd
  obtain ⟨pc, hpc, hflag⟩ := mem_find_matches.mp hmem
  have hd1 : 1 ≤ d := by rcases hflag with ⟨h1, _⟩ | ⟨h3, _⟩ <;> omega
  have hixlt : ix < g.tableau.length := getElem?_some_lt hpc
  have hsome := make_match_t_some hpc hd1 hd
  refine ⟨{ g with tableau := check3 ((check3 (g.tableau.eraseIdx ix) ix).set
      (ix - d) ⟨pc.card, false, false⟩) (ix - d) }, ?_, rfl, rfl, ?_, ?_, ?_, ?_⟩
  · unfold make_match
    rw [hsome]
    rfl
  · simp only []
    rw [length_check3, List.length_set, length_check3,
        List.length_eraseIdx_of_lt hixlt]
    omega
  · simp only []
    have hcards : cardsOf (check3 ((check3 (g.tableau.eraseIdx ix) ix).set
        (ix - d) ⟨pc.card, false, false⟩) (ix - d))
        = ((cardsOf g.tableau).eraseIdx ix).set (ix - d) pc.card := by
      rw [cardsOf_check3, cardsOf_set, cardsOf_check3, cardsOf_eraseIdx]
    rw [hcards]
    rw [List.getElem?_set_self]
    · rw [getElem?_cardsOf, hpc]
      rfl
    · rw [List.length_eraseIdx_of_lt (by rw [length_cardsOf]; exact hixlt)]
      rw [length_cardsOf]
      omega
  · intro j hj hjne
    simp only []
    have hcards : cardsOf (check3 ((check3 (g.tableau.eraseIdx ix) ix).set
        (ix - d) ⟨pc.card, false, false⟩) (ix - d))
        = ((cardsOf g.tableau).eraseIdx ix).set (ix - d) pc.card := by
      rw [cardsOf_check3, cardsOf_set, cardsOf_check3, cardsOf_eraseIdx]
    rw [hcards]
    rw [List.getElem?_set_ne (by omega)]
    exact List.getElem?_eraseIdx_of_lt _ _ _ hj
  · intro j hj
    simp only []
    have hcards : cardsOf (check3 ((check3 (g.tableau.eraseIdx ix) ix).set
        (ix - d) ⟨pc.card, false, false⟩) (ix - d))
        = ((cardsOf g.tableau).eraseIdx ix).set (ix - d) pc.card := by
      rw [cardsOf_check3, cardsOf_set, cardsOf_check3, cardsOf_eraseIdx]
    rw [hcards]
    rw [List.getElem?_set_ne (by omega)]
    exact List.getElem?_eraseIdx_of_ge _ _ _ (by omega)

/-- Witness for C2: the two-card tableau ace of clubs, two of clubs (with
its consistent suit-match flag) at candidate (1, 1). -/
def cwGame : Game := ⟨⟨[], 0⟩, 0, [⟨0, false, false⟩, ⟨1, true, false⟩]⟩

theorem C2_make_match_frame_witness :
    ∃ g', make_match cwGame (1, 1) = some g' ∧
      g'.deck = cwGame.deck ∧ g'.choice_points = cwGame.choice_points ∧
      g'.tableau.length + 1 = cwGame.tableau.length ∧
      (cardsOf g'.tableau)[0]? = (cardsOf cwGame.tableau)[1]? ∧
      (∀ j, j < 1 → j ≠ 0 →
        (cardsOf g'.tableau)[j]? = (cardsOf cwGame.tableau)[j]?) ∧
      (∀ j, 1 ≤ j → (cardsOf g'.tableau)[j]? = (cardsOf cwGame.tableau)[j + 1]?) :=
  C2_make_match_frame cwGame 1 1 (by decide) (by decide)

/-- C9: every candidate reported by find_matches on a flag-consistent
tableau has distance 1 or 3, index at least the distance and index inside
the tableau, and resolving it succeeds (no underflow in the destination
index, no out-of-range removal or placement). -/
theorem C9_candidates_in_range :
    ∀ (g : Game) (ix d : Nat), flagsOK g.tableau = true →
    (ix, d) ∈ find_matches g.tableau →
    (d = 1 ∨ d = 3) ∧ d ≤ ix ∧ ix < g.tableau.length ∧
    (make_match g (ix, d)).isSome := by
  intro g ix d hok hmem
  obtain ⟨pc, hpc, hflag⟩ := mem_find_matches.mp hmem
  have hokP := (flagsOK_iff _).mp hok
  have hfl := hokP ix pc hpc
  have hdor : d = 1 ∨ d = 3 := by rcases hflag with ⟨h1, _⟩ | ⟨h3, _⟩ <;> omega
  have hd : d ≤ ix := by
    rcases hflag with ⟨h1, hm⟩ | ⟨h3, hm⟩
    · subst h1
      exact flagSpecC_true_le (hfl.1.symm.trans hm)
    · subst h3
      exact flagSpecC_true_le (hfl.2.symm.trans hm)
  have hd1 : 1 ≤ d := by omega
  refine ⟨hdor, hd, getElem?_some_lt hpc, ?_⟩
  unfold make_match
  rw [make_match_t_some hpc hd1 hd]
  rfl

/-- Witness for C9: the consistent two-card tableau ace of clubs, two of
clubs reports (1, 1), which is in range and resolvable. -/
theorem C9_candidates_in_range_witness :
    ((1 : Nat) = 1 ∨ (1 : Nat) = 3) ∧ 1 ≤ 1 ∧ 1 < cwGame.tableau.length ∧
    (make_match cwGame (1, 1)).isSome :=
  C9_candidates_in_range cwGame 1 1 (by decide) (by decide)

/-! ## The play_to_choice loop, one iteration at a time (C3) -/

theorem deal_card_none_pos {g : Game} (hd : deal_card g = none) :
    g.deck.list.length ≤ g.deck.pos := by
  unfold deal_card Deck.draw at hd
  split at hd
  case isTrue h => simp at hd
  case isFalse h => omega

/-- C3: one iteration of the play_to_choice loop on any state reachable
from a fresh deal.  With no candidates it deals; if the deal fails the
loop ends, with GameWon exactly when one card remains and GameLost exactly
when more than one card remains.  With a single candidate the move is
forced and the loop continues without surfacing a choice.  With two or
more candidates the global choice counter is incremented by one and the
full candidate list is returned, the deck and tableau untouched. -/
theorem C3_play_to_choice_loop :
    ∀ g : Game, Reachable g → ∀ fuel : Nat,
    (find_matches g.tableau = [] → deal_card g = none →
      ((playToChoiceFuel (fuel + 1) g = some (.GameWon, g) ↔ g.tableau.length = 1) ∧
       (playToChoiceFuel (fuel + 1) g = some (.GameLost, g) ↔ 1 < g.tableau.length))) ∧
    (∀ g', find_matches g.tableau = [] → deal_card g = some g' →
      playToChoiceFuel (fuel + 1) g = playToChoiceFuel fuel g') ∧
    (∀ m g', find_matches g.tableau = [m] → make_match g m = some g' →
      playToChoiceFuel (fuel + 1) g = playToChoiceFuel fuel g') ∧
    (∀ c, find_matches g.tableau = c → 2 ≤ c.length →
      playToChoiceFuel (fuel + 1) g =
        some (.ChooseOne c, { g with choice_points := g.choice_points + 1 })) := by
  intro g hR fuel
  refine ⟨?_, ?_, ?_, ?_⟩
  · intro hfm hd
    have hne : g.tableau ≠ [] := by
      intro he
      have hp := reachable_empty_pos hR he
      have hl := reachable_decklen hR
      have := deal_card_none_pos hd
      omega
    have hlen0 : g.tableau.length ≠ 0 := by
      intro h0
      exact hne (List.length_eq_zero.mp h0)
    rw [ptc_succ_nil_none fuel hfm hd]
    by_cases h1 : g.tableau.length = 1
    · rw [if_pos h1]
      constructor
      · simp [h1]
      · constructor
        · intro h
          injection h with h
          injection h with hw _
          cases hw
        · omega
    · rw [if_neg h1]
      constructor
      · constructor
        · intro h
          injection h with h
          injection h with hw _
          cases hw
        · intro h
          exact absurd h h1
      · constructor
        · intro _
          omega
        · intro _
          rfl
  · intro g' hfm hd
    exact ptc_succ_nil_some fuel hfm hd
  · intro m g' hfm hmm
    exact ptc_succ_single fuel hfm hmm
  · intro c hfm hlen
    cases c with
    | nil => simp at hlen
    | cons a tl =>
        cases tl with
        | nil => simp at hlen
        | cons b rest => exact ptc_succ_multi fuel hfm

/-- Witness for C3: the fresh unshuffled game has no candidate and a
successful deal, so the first loop iteration just deals. -/
theorem C3_play_to_choice_loop_witness :
    playToChoiceFuel 1 (initGame Deck.new_unshuffled) =
      playToChoiceFuel 0 ((deal_card (initGame Deck.new_unshuffled)).getD
        (initGame Deck.new_unshuffled)) :=
  (C3_play_to_choice_loop (initGame Deck.new_unshuffled)
      (Reachable.init (List.finRange 52) (by decide) (by decide)) 0).2.1
    ((deal_card (initGame Deck.new_unshuffled)).getD (initGame Deck.new_unshuffled))
    (by decide) (by decide)

/-! ## The search loop (play_one) -/

theorem searchLoop_succ (fuel : Nat) (g : Game) (w l : Nat)
    (stack : List (SavedGame × MatchMove)) (cap : Nat) :
    searchLoop (fuel + 1) g w l stack cap =
      match playToChoice g with
      | none => none
      | some (.GameWon, g') =>
          match stack with
          | [] => some (g'.choice_points, w + 1, l, classify (w + 1) l)
          | (sv, m) :: rest =>
              (make_match (restore g' sv) m).bind fun g2 =>
                searchLoop fuel g2 (w + 1) l rest cap
      | some (.GameLost, g') =>
          match stack with
          | [] => some (g'.choice_points, w, l + 1, classify w (l + 1))
          | (sv, m) :: rest =>
              (make_match (restore g' sv) m).bind fun g2 =>
                searchLoop fuel g2 w (l + 1) rest cap
      | some (.ChooseOne c, g') =>
          if cap < g'.choice_points then some (g'.choice_points, w, l, .GaveUp)
          else
            match (c.map fun m => (save_game g', m)).reverse ++ stack with
            | [] => some (g'.choice_points, w, l, classify w l)
            | (sv, m) :: rest =>
                (make_match (restore g' sv) m).bind fun g2 =>
                  searchLoop fuel g2 w l rest cap := rfl

theorem searchLoop_won {g g' : Game} (fuel : Nat) (w l : Nat)
    (stack : List (SavedGame × MatchMove)) (cap : Nat)
    (h : playToChoice g = some (.GameWon, g')) :
    searchLoop (fuel + 1) g w l stack cap =
      match stack with
      | [] => some (g'.choice_points, w + 1, l, classify (w + 1) l)
      | (sv, m) :: rest =>
          (make_match (restore g' sv) m).bind fun g2 =>
            searchLoop fuel g2 (w + 1) l rest cap := by
  rw [searchLoop_succ, h]

theorem searchLoop_lost {g g' : Game} (fuel : Nat) (w l : Nat)
    (stack : List (SavedGame × MatchMove)) (cap : Nat)
    (h : playToChoice g = some (.GameLost, g')) :
    searchLoop (fuel + 1) g w l stack cap =
      match stack with
      | [] => some (g'.choice_points, w, l + 1, classify w (l + 1))
      | (sv, m) :: rest =>
          (make_match (restore g' sv) m).bind fun g2 =>
            searchLoop fuel g2 w (l + 1) rest cap := by
  rw [searchLoop_succ, h]

theorem searchLoop_choose {g g' : Game} {c : List MatchMove} (fuel : Nat)
    (w l : Nat) (stack : List (SavedGame × MatchMove)) (cap : Nat)
    (h : playToChoice g = some (.ChooseOne c, g')) :
    searchLoop (fuel + 1) g w l stack cap =
      if cap < g'.choice_points then some (g'.choice_points, w, l, .GaveUp)
      else
        match (c.map fun m => (save_game g', m)).reverse ++ stack with
        | [] => some (g'.choice_points, w, l, classify w l)
        | (sv, m) :: rest =>
            (make_match (restore g' sv) m).bind fun g2 =>
              searchLoop fuel g2 w l rest cap := by
  rw [searchLoop_succ, h]

/-- A completed (non-GaveUp) search returns the классification of its final
tallies, and it tallied at least one more terminal outcome than it started
with. -/
theorem searchLoop_sound :
    ∀ (fuel : Nat) (g : Game) (w l : Nat) (stack : List (SavedGame × MatchMove))
      (cap : Nat) {cp w' l' : Nat} {r : SResult},
    searchLoop fuel g w l stack cap = some (cp, w', l', r) →
    r = .GaveUp ∨ (r = classify w' l' ∧ w + l < w' + l') := by
  intro fuel
  induction fuel with
  | zero => intro g w l stack cap cp w' l' r h; cases h
  | succ fuel ih =>
      intro g w l stack cap cp w' l' r h
      cases hp : playToChoice g with
      | none => rw [searchLoop_succ, hp] at h; cases h
      | some pr =>
          obtain ⟨ch, g'⟩ := pr
          cases ch with
          | GameWon =>
              rw [searchLoop_won fuel w l stack cap hp] at h
              cases stack with
              | nil =>
                  injection h with h
                  injection h with h1 h
                  injection h with h2 h
                  injection h with h3 h4
                  subst h2; subst h3; subst h4
                  exact Or.inr ⟨rfl, by omega⟩
              | cons p rest =>
                  obtain ⟨sv, m⟩ := p
                  have h2 : (make_match (restore g' sv) m).bind
                      (fun g2 => searchLoop fuel g2 (w + 1) l rest cap) =
                      some (cp, w', l', r) := h
                  cases hmm : make_match (restore g' sv) m with
                  | none => rw [hmm] at h2; cases h2
                  | some g2 =>
                      rw [hmm] at h2
                      simp only [Option.some_bind] at h2
                      rcases ih g2 (w + 1) l rest cap h2 with hg | ⟨hc, hlt⟩
                      · exact Or.inl hg
                      · exact Or.inr ⟨hc, by omega⟩
          | GameLost =>
              rw [searchLoop_lost fuel w l stack cap hp] at h
              cases stack with
              | nil =>
                  injection h with h
                  injection h with h1 h
                  injection h with h2 h
                  injection h with h3 h4
                  subst h2; subst h3; subst h4
                  exact Or.inr ⟨rfl, by omega⟩
              | cons p rest =>
                  obtain ⟨sv, m⟩ := p
                  have h2 : (make_match (restore g' sv) m).bind
                      (fun g2 => searchLoop fuel g2 w (l + 1) rest cap) =
                      some (cp, w', l', r) := h
                  cases hmm : make_match (restore g' sv) m with
                  | none => rw [hmm] at h2; cases h2
                  | some g2 =>
                      rw [hmm] at h2
                      simp only [Option.some_bind] at h2
                      rcases ih g2 w (l + 1) rest cap h2 with hg | ⟨hc, hlt⟩
                      · exact Or.inl hg
                      · exact Or.inr ⟨hc, by omega⟩
          | ChooseOne c =>
              rw [searchLoop_choose fuel w l stack cap hp] at h
              by_cases hcap : cap < g'.choice_points
              · rw [if_pos hcap] at h
                injection h with h
                injection h with h1 h
                injection h with h2 h
                injection h with h3 h4
                subst h4
                exact Or.inl rfl
              · rw [if_neg hcap] at h
                have hc2 : 2 ≤ c.length := (ptc_ChooseOne_props hp).2.1
                cases hstack2 : (c.map fun m => (save_game g', m)).reverse ++ stack with
                | nil =>
                    exfalso
                    have hlen := congrArg List.length hstack2
                    rw [List.length_append, List.length_reverse, List.length_map] at hlen
                    simp only [List.length_nil] at hlen
                    omega
                | cons p rest =>
                    rw [hstack2] at h
                    obtain ⟨sv, m⟩ := p
                    have h2 : (make_match (restore g' sv) m).bind
                        (fun g2 => searchLoop fuel g2 w l rest cap) =
                        some (cp, w', l', r) := h
                    cases hmm : make_match (restore g' sv) m with
                    | none => rw [hmm] at h2; cases h2
                    | some g2 =>
                        rw [hmm] at h2
                        simp only [Option.some_bind] at h2
                        rcases ih g2 w l rest cap h2 with hg | ⟨hc, hlt⟩
                        · exact Or.inl hg
                        · exact Or.inr ⟨hc, by omega⟩

/-- C4: a search that runs to completion (not GaveUp) classifies by its
tallies: AlwaysWin iff zero losses, AlwaysLose iff some loss but zero
wins, CanWin iff both a win and a loss; it reaches at least one terminal
outcome, so zero wins and zero losses cannot be reported together, making
the three classifications mutually exclusive. -/
theorem C4_classification :
    ∀ (d : Deck) (cap fuel : Nat) (cp w l : Nat) (r : SResult),
    playOne d cap fuel = some (cp, w, l, r) → r ≠ .GaveUp →
    r = classify w l ∧ 1 ≤ w + l ∧ ¬(l = 0 ∧ w = 0) ∧
    (r = .AlwaysWin ↔ l = 0) ∧
    (r = .AlwaysLose ↔ l ≠ 0 ∧ w = 0) ∧
    (r = .CanWin ↔ l ≠ 0 ∧ w ≠ 0) := by
  intro d cap fuel cp w l r h hng
  rcases searchLoop_sound fuel (initGame d) 0 0 [] cap h with hg | ⟨hcls, hlt⟩
  · exact absurd hg hng
  · refine ⟨hcls, by omega, by omega, ?_, ?_, ?_⟩ <;> subst hcls <;>
      unfold classify <;> split_ifs <;> simp_all

/-- Witness for C4: the two-card deck ace of clubs, two of clubs plays out
to one win and no loss, classifying AlwaysWin. -/
theorem C4_classification_witness :
    SResult.AlwaysWin = classify 1 0 ∧ 1 ≤ 1 + 0 ∧ ¬((0 : Nat) = 0 ∧ (1 : Nat) = 0) ∧
    (SResult.AlwaysWin = .AlwaysWin ↔ (0 : Nat) = 0) ∧
    (SResult.AlwaysWin = .AlwaysLose ↔ (0 : Nat) ≠ 0 ∧ (1 : Nat) = 0) ∧
    (SResult.AlwaysWin = .CanWin ↔ (0 : Nat) ≠ 0 ∧ (1 : Nat) ≠ 0) :=
  C4_classification ⟨[0, 1], 0⟩ 10 1 0 1 0 .AlwaysWin (by decide) (by decide)

/-- C5: whenever a decision point leaves the global counter above the cap,
the search returns GaveUp with that counter value as an ordinary result;
with cap 0, the first decision point (counter 0 before, 1 after) returns
GaveUp with counter value 1. -/
theorem C5_cap_gaveup :
    (∀ (g : Game) (wins losses : Nat) (stack : List (SavedGame × MatchMove))
       (cap fuel : Nat) (c : List MatchMove) (g' : Game),
      playToChoice g = some (.ChooseOne c, g') → cap < g'.choice_points →
      searchLoop (fuel + 1) g wins losses stack cap =
        some (g'.choice_points, wins, losses, .GaveUp)) ∧
    (∀ (g : Game) (wins losses : Nat) (stack : List (SavedGame × MatchMove))
       (fuel : Nat) (c : List MatchMove) (g' : Game),
      g.choice_points = 0 → playToChoice g = some (.ChooseOne c, g') →
      searchLoop (fuel + 1) g wins losses stack 0 =
        some (1, wins, losses, .GaveUp)) := by
  constructor
  · intro g wins losses stack cap fuel c g' hp hcap
    rw [searchLoop_choose fuel wins losses stack cap hp, if_pos hcap]
  · intro g wins losses stack fuel c g' hcp hp
    have h1 : g'.choice_points = 1 := by
      rw [(ptc_ChooseOne_props hp).1, hcp]
    rw [searchLoop_choose fuel wins losses stack 0 hp, if_pos (by omega)]
    rw [h1]

/-- Deck producing an immediate two-way choice: ace of clubs, two of
diamonds, three of hearts, four of spades, four of diamonds — the last
deal matches both its left neighbour (rank) and the card three to its
left (suit). -/
def cw5G : Game := initGame ⟨[0, 14, 28, 42, 16], 0⟩

def cw5Gpost : Game := ((playToChoice cw5G).getD (Choices.GameLost, cw5G)).2

/-- Witness for C5: with cap 0 the first decision point returns GaveUp
with counter value 1. -/
theorem C5_cap_gaveup_witness :
    searchLoop 1 cw5G 0 0 [] 0 = some (1, 0, 0, .GaveUp) :=
  C5_cap_gaveup.2 cw5G 0 0 [] 0 [(4, 1), (4, 3)] cw5Gpost rfl (by decide)

/-! ## The deck (C6) -/

/-- Draw n cards in sequence, returning them in draw order together with
the final deck state (drawing stops early on exhaustion). -/
def drawN : Nat → Deck → List Card × Deck
  | 0, d => ([], d)
  | n + 1, d =>
      match d.draw with
      | none => ([], d)
      | some cd => (cd.1 :: (drawN n cd.2).1, (drawN n cd.2).2)

theorem draw_lt {l : List Card} {p : Nat} (hp : p < l.length) :
    Deck.draw ⟨l, p⟩ = some (l.get ⟨p, hp⟩, ⟨l, p + 1⟩) := by
  unfold Deck.draw
  rw [dif_pos hp]

theorem draw_ge {l : List Card} {p : Nat} (hp : l.length ≤ p) :
    Deck.draw ⟨l, p⟩ = none := by
  unfold Deck.draw
  rw [dif_neg (show ¬p < l.length by omega)]

theorem drawN_all :
    ∀ (n : Nat) (l : List Card) (p : Nat), p + n ≤ l.length →
    drawN n ⟨l, p⟩ = ((l.drop p).take n, ⟨l, p + n⟩) := by
  intro n
  induction n with
  | zero =>
      intro l p h
      simp [drawN]
  | succ n ih =>
      intro l p h
      have hp : p < l.length := by omega
      have hstep : drawN (n + 1) ⟨l, p⟩ =
          (l.get ⟨p, hp⟩ :: (drawN n ⟨l, p + 1⟩).1, (drawN n ⟨l, p + 1⟩).2) := by
        rw [show drawN (n + 1) ⟨l, p⟩ =
            (match (⟨l, p⟩ : Deck).draw with
             | none => ([], (⟨l, p⟩ : Deck))
             | some cd => (cd.1 :: (drawN n cd.2).1, (drawN n cd.2).2)) from rfl,
          draw_lt hp]
      rw [hstep, ih l (p + 1) (by omega)]
      rw [List.drop_eq_getElem_cons hp, List.take_succ_cons]
      simp only [List.get_eq_getElem]
      rw [show p + 1 + n = p + (n + 1) by omega]

/-- C6: draw returns the card at the cursor and advances it while the
cursor is below the deck size, and reports exhaustion otherwise, leaving
the deck unchanged by construction; from any 52-card duplicate-free deck
with cursor 0, 52 draws return exactly the underlying list — a
permutation of all 52 identities, each exactly once — and the 53rd draw
reports exhaustion. -/
theorem C6_deck_draw :
    (∀ d : Deck, d.pos < d.list.length →
      ∃ h : d.pos < d.list.length,
        d.draw = some (d.list.get ⟨d.pos, h⟩, { d with pos := d.pos + 1 })) ∧
    (∀ d : Deck, d.list.length ≤ d.pos → d.draw = none) ∧
    (∀ d : Deck, d.list.Nodup → d.list.length = 52 → d.pos = 0 →
      (drawN 52 d).1 = d.list ∧
      (drawN 52 d).1.Perm (List.finRange 52) ∧
      (∀ c : Card, (drawN 52 d).1.count c = 1) ∧
      (drawN 52 d).2.draw = none) := by
  refine ⟨?_, ?_, ?_⟩
  · intro d hlt
    refine ⟨hlt, ?_⟩
    obtain ⟨l, p⟩ := d
    exact draw_lt hlt
  · intro d hge
    obtain ⟨l, p⟩ := d
    exact draw_ge hge
  · intro d hn hl hp
    obtain ⟨l, p⟩ := d
    simp only [] at hn hl hp
    subst hp
    have hall := drawN_all 52 l 0 (by omega)
    have hfst : (drawN 52 (⟨l, 0⟩ : Deck)).1 = l := by
      rw [hall]
      simp only [List.drop_zero]
      rw [← hl, List.take_length]
    have hmem : ∀ c : Card, c ∈ l := by
      intro c
      have h1 : l.toFinset.card = 52 := by
        rw [List.toFinset_card_of_nodup hn, hl]
      have h2 : l.toFinset = Finset.univ :=
        Finset.eq_univ_of_card _ (by rw [h1, Fintype.card_fin])
      rw [← List.mem_toFinset, h2]
      exact Finset.mem_univ c
    have hcount : ∀ c : Card, l.count c = 1 := fun c =>
      List.count_eq_one_of_mem hn (hmem c)
    refine ⟨hfst, ?_, ?_, ?_⟩
    · rw [hfst]
      refine List.perm_iff_count.mpr fun a => ?_
      rw [hcount a,
        List.count_eq_one_of_mem (List.nodup_finRange 52) (List.mem_finRange a)]
    · intro c
      rw [hfst]
      exact hcount c
    · rw [hall]
      exact draw_ge (by omega)

/-- Witness for C6: the unshuffled deck satisfies the freshness
hypotheses. -/
theorem C6_deck_draw_witness :
    (drawN 52 Deck.new_unshuffled).1 = Deck.new_unshuffled.list ∧
    (drawN 52 Deck.new_unshuffled).1.Perm (List.finRange 52) ∧
    (∀ c : Card, (drawN 52 Deck.new_unshuffled).1.count c = 1) ∧
    (drawN 52 Deck.new_unshuffled).2.draw = none :=
  C6_deck_draw.2.2 Deck.new_unshuffled (List.nodup_finRange 52)
    (List.length_finRange 52) rfl

/-! ## The card model (C7) -/

/-- C7: decoding an identity to (rank, suit) and re-encoding as
suit*13 + rank returns the identity, and no two distinct identities share
both rank and suit — the decoding is a bijection onto rank-suit pairs. -/
theorem C7_card_bijection :
    (∀ c : Card, encode (rank c) (suit c) = c.val) ∧
    (∀ c c' : Card, rank c = rank c' ∧ suit c = suit c' → c = c') := by
  constructor <;> decide

/-- Witness for C7 at the seven of clubs (identity 6). -/
theorem C7_card_bijection_witness :
    encode (rank (6 : Card)) (suit 6) = (6 : Card).val ∧ (6 : Card) = 6 :=
  ⟨C7_card_bijection.1 6, C7_card_bijection.2 6 6 ⟨rfl, rfl⟩⟩

/-! ## The match engine (C8) -/

/-- C8: is_match reports a suit match exactly on a shared suit (priority),
a rank match exactly on a shared rank without a shared suit, and no match
otherwise; dealing ace of clubs then two of clubs marks position 1 with
matches_one true (shared suit) and matches_three false (no position three
to the left). -/
theorem C8_is_match :
    (∀ a b : PlacedCard,
      (isMatch a b = some .suitM ↔ suit a.card = suit b.card) ∧
      (isMatch a b = some .rankM ↔
        suit a.card ≠ suit b.card ∧ rank a.card = rank b.card) ∧
      (isMatch a b = none ↔
        suit a.card ≠ suit b.card ∧ rank a.card ≠ rank b.card)) ∧
    ((deal_card (initGame Deck.new_unshuffled)).bind deal_card).map
        (fun g => g.tableau.map fun p => (p.card, p.matches_one, p.matches_three))
      = some [(0, false, false), (1, true, false)] := by
  constructor
  · intro a b
    unfold isMatch isMatchC
    refine ⟨?_, ?_, ?_⟩ <;> split_ifs with h1 h2 <;> simp_all
  · decide

/-! ## Termination (C10) -/

/-- C10: on every reachable game state play_to_choice terminates with a
result (GameWon, GameLost or ChooseOne — the loop has no other exit and
never runs out with sufficient fuel); and the full search from the
unshuffled deck terminates for every cap with one explored branch ending
in a terminal win, zero choice points, and classification AlwaysWin —
never GaveUp. -/
theorem C10_termination :
    (∀ g : Game, Reachable g → (playToChoice g).isSome) ∧
    (∀ cap : Nat, playOne Deck.new_unshuffled cap 1 = some (0, 1, 0, .AlwaysWin)) := by
  constructor
  · intro g hR
    exact playToChoice_isSome (reachable_Wvalid hR)
  · intro cap
    rfl

/-- Witness for C10: the fresh unshuffled game is reachable, so
play_to_choice returns a result on it. -/
theorem C10_termination_witness :
    (playToChoice (initGame Deck.new_unshuffled)).isSome = true :=
  C10_termination.1 (initGame Deck.new_unshuffled)
    (Reachable.init (List.finRange 52) (by decide) (by decide))

end SG

